import Mathlib

/-!
Verification development for the jsonschema_code_generator repository.

The Rust sources under src/ are shallowly embedded below:
  * src/parser.rs     : `Root`, `DataType`, `Object`, `ObjectProperty`, `Schema`,
                        `parseType`, `parseFromString`, `parseFromFileM`
  * src/ref_parser.rs : `RefPath`, `parseRef`
  * src/resolver.rs   : `ResolveResult`, `derefModel`, `resolve`
  * src/generated.rs  : `GeneratedType`, `GeneratedProperty`, `SerdeOptions`
  * src/generator.rs  : `GenState`, `addType`, `addObject`, `addObjectCore`,
                        `createProperty`, `createPropertyList`, `addDataTypeList`,
                        `add`, `addFile`, `getCollisionFreeName`, `finalize`

Modelling conventions:
  * Rust `panic!` and recursion are modelled with an `Except GenErr` result and an
    explicit fuel parameter: `.fatal msg` models a panic, `.outOfFuel` models
    running out of fuel (so non-termination of the source shows up as
    `∀ fuel, run fuel = .error .outOfFuel`).
  * `HashMap` fields are modelled as association lists (`alookup` models `get`,
    appending a fresh key models `insert`; the generator only ever inserts fresh
    keys).  `HashMap` iteration order, which the source only uses in
    `Into<Vec<GeneratedType>>` before sorting, is modelled by quantifying over
    permutations of the association list.
  * The resolver cache only shares parsed `Root` values; since parsing is pure
    (a function of the path in this model), caching is value-transparent and the
    file system is modelled as a pure map `String → Option Root`.
  * The two identifier sanitizers live in the external `convert_case` crate, so
    they are taken as parameters (`GenEnv.sanitizeStructName`,
    `GenEnv.sanitizePropertyName`), exactly as the spec declares them external
    collaborators.
  * Rust file paths are modelled as strings with '/' separators; `parentPath`,
    `joinPath` and `withExtensionJson` model `Path::parent`, `Path::join` and
    `PathBuf::with_extension("json")` on ordinary relative paths.
-/

namespace JscGen

/-- The kind of a primitive JSON type, see `PrimitiveType` in src/parser.rs. -/
inductive PrimitiveType where
  | null
  | boolean
  | integer
  | number
  | string
deriving DecidableEq, Repr

mutual

/-- The IR sum type, see `DataType` in src/parser.rs. -/
inductive DataType where
  | primitiveType (p : PrimitiveType)
  | array (items : DataType)
  | object (obj : Object)
  | map (value : DataType)
  | ref (refPath : String)
  | oneOf (types : List DataType)
  | anyOf (types : List DataType)
  | allOf (types : List DataType)
  | any
deriving Repr

/-- A structural record, see `Object` in src/parser.rs. -/
inductive Object where
  | mk (src : String) (name : String) (properties : List ObjectProperty)
deriving Repr

/-- A property of an `Object`, see `ObjectProperty` in src/parser.rs. -/
inductive ObjectProperty where
  | mk (name : String) (required : Bool) (dataType : DataType)
deriving Repr

end

def Object.src : Object → String
  | .mk s _ _ => s

def Object.name : Object → String
  | .mk _ n _ => n

def Object.properties : Object → List ObjectProperty
  | .mk _ _ ps => ps

def ObjectProperty.name : ObjectProperty → String
  | .mk n _ _ => n

def ObjectProperty.required : ObjectProperty → Bool
  | .mk _ r _ => r

def ObjectProperty.dataType : ObjectProperty → DataType
  | .mk _ _ dt => dt

/-- A parsed schema file, see `Root` in src/parser.rs.  `file` is the path string
(`PathBuf` in the source), `definitions` models the `HashMap` of definitions. -/
structure Root where
  file : String
  dataType : DataType
  definitions : List (String × DataType)

/-- Association-list lookup, modelling `HashMap::get`. -/
def alookup {α : Type} : List (String × α) → String → Option α
  | [], _ => none
  | (k, v) :: rest, key => if k = key then some v else alookup rest key

/-- Errors of the model: `.fatal` models a Rust `panic!`, `.outOfFuel` models
exhausting the explicit fuel of the recursion. -/
inductive GenErr where
  | outOfFuel
  | fatal (msg : String)
deriving DecidableEq, Repr

/-- Structural single-character split over the character list of a string.
Models Rust `str::split(c)` (all separators used by the source are single
characters: '#', '/', '.'). -/
def splitOnChar (c : Char) : List Char → List (List Char)
  | [] => [[]]
  | x :: xs =>
    let r := splitOnChar c xs
    if x = c then [] :: r
    else
      match r with
      | [] => [[x]]
      | y :: ys => (x :: y) :: ys

def splitString (c : Char) (s : String) : List String :=
  (splitOnChar c s.data).map String.mk

/-- The parsed form of a reference string, see `RefPath` in src/ref_parser.rs. -/
structure RefPath where
  file : Option String
  path : Option String
deriving DecidableEq, Repr

def strToOpt (s : String) : Option String :=
  if s = "" then none else some s

/-- Models `parse_ref` in src/ref_parser.rs: split on '#'; an empty part becomes
`none`; three or more parts panic. -/
def parseRef (fullPath : String) : Except GenErr RefPath :=
  match splitString '#' fullPath with
  | [f] => .ok ⟨strToOpt f, none⟩
  | [f, p] => .ok ⟨strToOpt f, strToOpt p⟩
  | _ => .error (.fatal ("Malformed ref path: " ++ fullPath))

/-- Models `Path::parent` on a relative '/'-separated path string: `none` for
the empty path and the bare root, otherwise the path with the final component
removed. -/
def parentPath (p : String) : Option String :=
  if p = "" ∨ p = "/" then none
  else some (String.intercalate "/" (splitString '/' p).dropLast)

def strHeadIsSlash (s : String) : Bool :=
  match s.data with
  | '/' :: _ => true
  | _ => false

def strLastIsSlash (s : String) : Bool :=
  match s.data.getLast? with
  | some '/' => true
  | _ => false

/-- Models `Path::join`: an absolute right side replaces the base, otherwise the
components are concatenated with a '/' separator. -/
def joinPath (base file : String) : String :=
  if strHeadIsSlash file then file
  else if base = "" then file
  else if strLastIsSlash base then base ++ file
  else base ++ "/" ++ file

/-- The nonempty slash-separated segments of a reference fragment, as computed
by `Resolver::deref` in src/resolver.rs. -/
def refSegs (p : String) : List String :=
  (splitString '/' p).filter (fun x => x ≠ "")

/-- Models `Resolver::deref` in src/resolver.rs: the fragment must split into
exactly two nonempty segments, the first being `definitions` or `$defs`, and the
second must name an existing definition; every other shape panics. -/
def derefModel (path : String) (defs : List (String × DataType)) : Except GenErr DataType :=
  match refSegs path with
  | [] => .error (.fatal ("Cannot resolve empty ref " ++ path))
  | [a, b] =>
    if a ≠ "definitions" ∧ a ≠ "$defs" then
      .error (.fatal "Ref path should begin with definitions or dollar-defs")
    else
      match alookup defs b with
      | some dt => .ok dt
      | none => .error (.fatal ("No local definition for " ++ path ++ " found"))
  | _ => .error (.fatal ("Invalid ref " ++ path))

/-- The result of resolving a reference, see `ResolveResult` in src/resolver.rs. -/
structure ResolveResult where
  root : Root
  path : Option String
  dataType : DataType

/-- Models `Resolver::resolve` in src/resolver.rs.  `files` models
`parse_from_file` results keyed by the joined path (the in-memory cache of the
source only shares parsed values, which a pure map already does). -/
def resolve (files : String → Option Root) (root : Root) (refPath : String) :
    Except GenErr ResolveResult :=
  match parseRef refPath with
  | .error e => .error e
  | .ok rp =>
    let fileJoined : Except GenErr (Option String) :=
      match rp.file with
      | some f =>
        match parentPath root.file with
        | some base => .ok (some (joinPath base f))
        | none => .error (.fatal (root.file ++ " has no parent"))
      | none => .ok none
    match fileJoined with
    | .error e => .error e
    | .ok f? =>
      let newRoot : Except GenErr Root :=
        match f? with
        | some f =>
          match files f with
          | some r => .ok r
          | none => .error (.fatal ("Could not open " ++ f))
        | none => .ok root
      match newRoot with
      | .error e => .error e
      | .ok root' =>
        match rp.path with
        | some p =>
          match derefModel p root'.definitions with
          | .error e => .error e
          | .ok dt => .ok ⟨root', some p, dt⟩
        | none => .ok ⟨root', none, root'.dataType⟩

/-- Little-endian decimal digits of `n`, with explicit fuel (`fuel ≥ n` is
always enough). -/
def natDigitsAux : Nat → Nat → List Nat
  | 0, _ => []
  | _ + 1, 0 => []
  | fuel + 1, n + 1 => ((n + 1) % 10) :: natDigitsAux fuel ((n + 1) / 10)

/-- Decimal rendering of a natural number; models Rust's `{}` formatting of the
collision counter. -/
def natDecimal (n : Nat) : String :=
  match n with
  | 0 => "0"
  | m + 1 => String.mk (((natDigitsAux (m + 1) (m + 1)).reverse).map Nat.digitChar)

/-- The value of a little-endian digit list; left inverse of `natDigitsAux`. -/
def undigits (l : List Nat) : Nat :=
  l.foldr (fun d acc => acc * 10 + d) 0

/-- The digit encoded by a decimal digit character. -/
def charToDigit (c : Char) : Nat := c.toNat - 48

/-- The k-th candidate name tried by `get_collision_free_name`: the bare name
first, then `name1`, `name2`, ... -/
def candidateName (name : String) (k : Nat) : String :=
  match k with
  | 0 => name
  | _ + 1 => name ++ natDecimal k

/-- The first candidate with index ≥ k (searching at most `fuel` candidates)
that is not in `used`; models the `while` loop of `get_collision_free_name`. -/
def findFreeFrom (used : List String) (name : String) : Nat → Nat → String
  | 0, k => candidateName name k
  | fuel + 1, k =>
    if candidateName name k ∈ used then findFreeFrom used name fuel (k + 1)
    else candidateName name k

/-- Models `Generator::get_collision_free_name` in src/generator.rs.  The fuel
`known.length + 1` is always sufficient: among the first `known.length + 1`
pairwise-distinct candidates at least one is unused. -/
def getCollisionFreeName (known : List (String × String)) (name : String) : String :=
  findFreeFrom (known.map Prod.snd) name (known.length + 1) 0

/-- Serde annotations of a generated property, see `SerdeOptions` in
src/generated.rs. -/
structure SerdeOptions where
  rename : Option String
  skipSerializingIf : Option String
deriving DecidableEq, Repr

/-- A generated record property, see `GeneratedProperty` in src/generated.rs. -/
structure GeneratedProperty where
  name : String
  propertyType : String
  serdeOptions : SerdeOptions
deriving DecidableEq, Repr

/-- A generated record, see `GeneratedType` in src/generated.rs. -/
structure GeneratedType where
  src : String
  name : String
  properties : List GeneratedProperty
deriving DecidableEq, Repr

/-- One entry of the generator's `types` table: source key, insertion position,
record payload (see `EntryWithPosition` in src/generator.rs). -/
abbrev TypesEntry := String × Nat × GeneratedType

/-- The mutable state of `Generator` in src/generator.rs: `types`,
`next_position` and `known_type_names` (the resolver cache is value-transparent
here, see the module comment). -/
structure GenState where
  types : List TypesEntry
  nextPosition : Nat
  knownTypeNames : List (String × String)
deriving DecidableEq, Repr

def initState : GenState := ⟨[], 0, []⟩

/-- The pure environment of a generation run: the file system (as
`parse_from_file` results) and the two external sanitizer functions. -/
structure GenEnv where
  files : String → Option Root
  sanitizeStructName : String → String
  sanitizePropertyName : String → String

/-- The primitive branch of `add_type` in src/generator.rs. -/
def primitiveTypeName : PrimitiveType → String
  | .null => "Value"
  | .boolean => "bool"
  | .integer => "i64"
  | .number => "f64"
  | .string => "String"

/-- The final `match required` of `add_type` in src/generator.rs. -/
def wrapRequired (required : Bool) (typeName : String) : String :=
  match required with
  | true => typeName
  | false => "Option<" ++ typeName ++ ">"

mutual

/-- Models `Generator::add_type` in src/generator.rs.  Every recursive call
consumes one unit of fuel. -/
def addType (cfg : GenEnv) (fuel : Nat) (s : GenState) (basePath : String) (root : Root)
    (srcOverride : Option String) (dt : DataType) (required : Bool)
    (visited : List String) : Except GenErr (String × GenState) :=
  match fuel with
  | 0 => .error .outOfFuel
  | fuel + 1 =>
    let inner : Except GenErr (String × GenState) :=
      match dt with
      | .primitiveType p => .ok (primitiveTypeName p, s)
      | .array items =>
        match addType cfg fuel s basePath root srcOverride items true [] with
        | .error e => .error e
        | .ok (t, s') => .ok ("Vec<" ++ t ++ ">", s')
      | .object obj =>
        addObject cfg fuel s basePath root (srcOverride.getD obj.src) obj visited
      | .map value =>
        match addType cfg fuel s basePath root none value true [] with
        | .error e => .error e
        | .ok (t, s') => .ok ("BTreeMap<String, " ++ t ++ ">", s')
      | .ref refPath =>
        match resolve cfg.files root refPath with
        | .error e => .error e
        | .ok res =>
          let src :=
            match res.path with
            | some p => res.root.file ++ "#" ++ p
            | none => res.root.file
          addType cfg fuel s basePath res.root (some src) res.dataType true visited
      | .oneOf ts =>
        match addDataTypeList cfg fuel s basePath root ts with
        | .error e => .error e
        | .ok s' => .ok ("Value", s')
      | .anyOf ts =>
        match addDataTypeList cfg fuel s basePath root ts with
        | .error e => .error e
        | .ok s' => .ok ("Value", s')
      | .allOf ts =>
        match addDataTypeList cfg fuel s basePath root ts with
        | .error e => .error e
        | .ok s' => .ok ("Value", s')
      | .any => .ok ("Value", s)
    match inner with
    | .error e => .error e
    | .ok (typeName, s') => .ok (wrapRequired required typeName, s')

/-- Models the cycle detection and `Box` marking of `Generator::add_object` in
src/generator.rs (lines 118-123 and 169-172). -/
def addObject (cfg : GenEnv) (fuel : Nat) (s : GenState) (basePath : String) (root : Root)
    (src : String) (obj : Object) (visited : List String) :
    Except GenErr (String × GenState) :=
  match fuel with
  | 0 => .error .outOfFuel
  | fuel + 1 =>
    let cycleDetected := visited.contains src
    let visited' := if cycleDetected then [] else visited
    match addObjectCore cfg fuel s basePath root src obj visited' with
    | .error e => .error e
    | .ok (name, s') =>
      .ok ((match cycleDetected with
            | true => "Box<" ++ name ++ ">"
            | false => name), s')

/-- Models the name selection / dedup / fresh-record body of
`Generator::add_object` in src/generator.rs (lines 125-167). -/
def addObjectCore (cfg : GenEnv) (fuel : Nat) (s : GenState) (basePath : String) (root : Root)
    (src : String) (obj : Object) (visited : List String) :
    Except GenErr (String × GenState) :=
  match fuel with
  | 0 => .error .outOfFuel
  | fuel + 1 =>
    match alookup s.knownTypeNames src with
    | some name => .ok (name, s)
    | none =>
      match alookup s.types src with
      | some pr => .ok (pr.2.name, s)
      | none =>
        let position := s.nextPosition
        let name := getCollisionFreeName s.knownTypeNames (cfg.sanitizeStructName obj.name)
        let s2 : GenState :=
          { s with
            nextPosition := s.nextPosition + 1
            knownTypeNames := s.knownTypeNames ++ [(src, name)] }
        match createPropertyList cfg fuel s2 basePath root obj.properties (visited ++ [src]) with
        | .error e => .error e
        | .ok (props, s3) =>
          .ok (name, { s3 with types := s3.types ++ [(src, position, ⟨src, name, props⟩)] })

/-- Models `Generator::create_property` in src/generator.rs. -/
def createProperty (cfg : GenEnv) (fuel : Nat) (s : GenState) (basePath : String) (root : Root)
    (p : ObjectProperty) (visited : List String) :
    Except GenErr (GeneratedProperty × GenState) :=
  match fuel with
  | 0 => .error .outOfFuel
  | fuel + 1 =>
    let propertyName := cfg.sanitizePropertyName p.name
    let rename := if p.name = propertyName then none else some p.name
    let skip := if p.required then none else some "Option::is_none"
    match addType cfg fuel s basePath root none p.dataType p.required visited with
    | .error e => .error e
    | .ok (t, s') => .ok (⟨propertyName, t, ⟨rename, skip⟩⟩, s')

/-- The `for property in properties` loop of `Generator::add_object`. -/
def createPropertyList (cfg : GenEnv) (fuel : Nat) (s : GenState) (basePath : String)
    (root : Root) (props : List ObjectProperty) (visited : List String) :
    Except GenErr (List GeneratedProperty × GenState) :=
  match fuel with
  | 0 => .error .outOfFuel
  | fuel + 1 =>
    match props with
    | [] => .ok ([], s)
    | p :: rest =>
      match createProperty cfg fuel s basePath root p visited with
      | .error e => .error e
      | .ok (gp, s') =>
        match createPropertyList cfg fuel s' basePath root rest visited with
        | .error e => .error e
        | .ok (gps, s'') => .ok (gp :: gps, s'')

/-- The `for data_type in types { self.add(...) }` loop of the OneOf / AnyOf /
AllOf branches of `add_type`; each child is added with `required = false` and a
fresh `visited` stack, exactly as `Generator::add` does. -/
def addDataTypeList (cfg : GenEnv) (fuel : Nat) (s : GenState) (basePath : String)
    (root : Root) (ts : List DataType) : Except GenErr GenState :=
  match fuel with
  | 0 => .error .outOfFuel
  | fuel + 1 =>
    match ts with
    | [] => .ok s
    | dt :: rest =>
      match addType cfg fuel s basePath root none dt false [] with
      | .error e => .error e
      | .ok (_, s') => addDataTypeList cfg fuel s' basePath root rest

end

/-- Models `Generator::add` in src/generator.rs: recursion entered with
`src_override = None`, `required = false` and an empty `visited_objects`. -/
def add (cfg : GenEnv) (fuel : Nat) (s : GenState) (basePath : String) (root : Root)
    (dt : DataType) : Except GenErr (String × GenState) :=
  addType cfg fuel s basePath root none dt false []

/-- Models `Generator::add_file` in src/generator.rs: parse the file, then `add`
its root data type with the parent directory as base path. -/
def addFile (cfg : GenEnv) (fuel : Nat) (s : GenState) (path : String) :
    Except GenErr (String × GenState) :=
  match parentPath path with
  | none => .error (.fatal (path ++ " has no parent"))
  | some basePath =>
    match cfg.files path with
    | none => .error (.fatal ("Could not open " ++ path))
    | some root => add cfg fuel s basePath root root.dataType

/-- Position comparison on `types` entries, see `Ord for EntryWithPosition` in
src/generator.rs. -/
def posLE (a b : TypesEntry) : Prop := a.2.1 ≤ b.2.1

def posLT (a b : TypesEntry) : Prop := a.2.1 < b.2.1

instance : DecidableRel posLE := fun a b => Nat.decLe a.2.1 b.2.1

instance : IsTotal TypesEntry posLE := ⟨fun a b => Nat.le_total a.2.1 b.2.1⟩

instance : IsTrans TypesEntry posLE := ⟨fun _ _ _ h h' => Nat.le_trans h h'⟩

instance : IsAntisymm TypesEntry posLT :=
  ⟨fun _ _ h h' => absurd h' (Nat.lt_asymm h)⟩

/-- Models `Into<Vec<GeneratedType>> for Generator` up to the arbitrary
`HashMap` iteration order: the caller supplies the enumeration `l` of the
`types` table (any permutation), and the entries are sorted by position. -/
def finalizeEntries (l : List TypesEntry) : List TypesEntry :=
  List.insertionSort posLE l

/-- The payloads of the sorted entries, the final value of
`Into<Vec<GeneratedType>> for Generator`. -/
def finalize (l : List TypesEntry) : List GeneratedType :=
  (finalizeEntries l).map (fun e => e.2.2)

/-- The `type` keyword values, see `Types` in src/schema.rs. -/
inductive Types where
  | null
  | boolean
  | integer
  | number
  | string
  | array
  | object
deriving DecidableEq, Repr

/-- The decoded schema document, see `Schema` in src/schema.rs.  The `BTreeMap`
fields are association lists in ascending key order (serde materialises them
sorted).  The `enum` and `constant` fields of the source are decoded but never
influence the produced `DataType` (the `enum_values` computed in `parse_type`
are unused), so they are omitted here. -/
inductive Schema where
  | mk
    (ref_ : Option String)
    (title : Option String)
    (type_ : Option Types)
    (required : Option (List String))
    (properties : List (String × Schema))
    (patternProperties : List (String × Schema))
    (items : Option Schema)
    (definitions : List (String × Schema))
    (defs : List (String × Schema))
    (oneOf : List Schema)
    (anyOf : List Schema)
    (allOf : List Schema)

def Schema.ref_ : Schema → Option String
  | .mk r _ _ _ _ _ _ _ _ _ _ _ => r

def Schema.title : Schema → Option String
  | .mk _ t _ _ _ _ _ _ _ _ _ _ => t

def Schema.type_ : Schema → Option Types
  | .mk _ _ ty _ _ _ _ _ _ _ _ _ => ty

def Schema.required : Schema → Option (List String)
  | .mk _ _ _ r _ _ _ _ _ _ _ _ => r

def Schema.properties : Schema → List (String × Schema)
  | .mk _ _ _ _ ps _ _ _ _ _ _ _ => ps

def Schema.patternProperties : Schema → List (String × Schema)
  | .mk _ _ _ _ _ pp _ _ _ _ _ _ => pp

def Schema.items : Schema → Option Schema
  | .mk _ _ _ _ _ _ it _ _ _ _ _ => it

def Schema.definitions : Schema → List (String × Schema)
  | .mk _ _ _ _ _ _ _ ds _ _ _ _ => ds

def Schema.defs : Schema → List (String × Schema)
  | .mk _ _ _ _ _ _ _ _ ds _ _ _ => ds

def Schema.oneOf : Schema → List Schema
  | .mk _ _ _ _ _ _ _ _ _ os _ _ => os

def Schema.anyOf : Schema → List Schema
  | .mk _ _ _ _ _ _ _ _ _ _ as _ => as

def Schema.allOf : Schema → List Schema
  | .mk _ _ _ _ _ _ _ _ _ _ _ als => als

mutual

/-- Models `parse_type` in src/parser.rs, with explicit fuel.  The first match
wins: `$ref`, then `oneOf` / `anyOf` / `allOf`, then `type`, else `Any`. -/
def parseType (fuel : Nat) (src : String) (schema : Schema) (parentSchema : Option Schema)
    (propertyName : Option String) : Option DataType :=
  match fuel with
  | 0 => none
  | fuel + 1 =>
    match schema.ref_ with
    | some refPath => some (.ref refPath)
    | none =>
      if schema.oneOf.length > 0 then
        (parseTypeList fuel (src ++ "/oneOf") schema schema.oneOf 0).map (fun ts => .oneOf ts)
      else if schema.anyOf.length > 0 then
        (parseTypeList fuel (src ++ "/anyOf") schema schema.anyOf 0).map (fun ts => .anyOf ts)
      else if schema.allOf.length > 0 then
        (parseTypeList fuel (src ++ "/allOf") schema schema.allOf 0).map (fun ts => .allOf ts)
      else
        match schema.type_ with
        | some .null => some (.primitiveType .null)
        | some .boolean => some (.primitiveType .boolean)
        | some .integer => some (.primitiveType .integer)
        | some .number => some (.primitiveType .number)
        | some .string => some (.primitiveType .string)
        | some .array =>
          match schema.items with
          | some items => (parseType fuel (src ++ "/items") items none none).map (fun dt => .array dt)
          | none => some (.array .any)
        | some .object =>
          match schema.patternProperties with
          | (_, ps) :: _ =>
            (parseType fuel (src ++ "/patternProperties") ps none none).map (fun dt => .map dt)
          | [] =>
            if schema.properties.length > 0 then
              parseObjectType fuel src schema parentSchema propertyName
            else some (.map .any)
        | none => some .any

/-- The numbered `oneOf` / `anyOf` / `allOf` child loop of `parse_type`; the
parent schema is propagated as the composition parent. -/
def parseTypeList (fuel : Nat) (srcBase : String) (parent : Schema) (l : List Schema)
    (i : Nat) : Option (List DataType) :=
  match fuel with
  | 0 => none
  | fuel + 1 =>
    match l with
    | [] => some []
    | sc :: rest =>
      match parseType fuel (srcBase ++ "/" ++ natDecimal i) sc (some parent) none with
      | none => none
      | some dt => (parseTypeList fuel srcBase parent rest (i + 1)).map (fun ts => dt :: ts)

/-- Models `parse_object_type` in src/parser.rs: title inheritance from the
composition parent, union of the own and parent `required` sets, and the
property loop over the (sorted) `properties` map. -/
def parseObjectType (fuel : Nat) (src : String) (schema : Schema) (xOfParent : Option Schema)
    (propertyName : Option String) : Option DataType :=
  match fuel with
  | 0 => none
  | fuel + 1 =>
    let name :=
      match schema.title with
      | some t => t
      | none =>
        match xOfParent with
        | some parent =>
          match parent.title with
          | some t => t
          | none =>
            match propertyName with
            | some t => t
            | none => "Unknown"
        | none =>
          match propertyName with
          | some t => t
          | none => "Unknown"
    let requiredProps :=
      (schema.required.getD []) ++
        (match xOfParent with
         | some parent => parent.required.getD []
         | none => [])
    (parsePropertyList fuel src requiredProps schema.properties).map
      (fun props => .object (.mk src name props))

/-- The `for (name, property) in schema.properties` loop of
`parse_object_type`. -/
def parsePropertyList (fuel : Nat) (src : String) (requiredProps : List String)
    (l : List (String × Schema)) : Option (List ObjectProperty) :=
  match fuel with
  | 0 => none
  | fuel + 1 =>
    match l with
    | [] => some []
    | (name, psch) :: rest =>
      match parsePropertySchema fuel (src ++ "/properties/" ++ name) name psch
          (requiredProps.contains name) with
      | none => none
      | some p => (parsePropertyList fuel src requiredProps rest).map (fun ps => p :: ps)

/-- Models `parse_property` in src/parser.rs: the property's title, when
present, replaces the property name as the fallback struct name. -/
def parsePropertySchema (fuel : Nat) (src : String) (name : String) (schema : Schema)
    (required : Bool) : Option ObjectProperty :=
  match fuel with
  | 0 => none
  | fuel + 1 =>
    let fallbackName := schema.title.getD name
    (parseType fuel src schema none (some fallbackName)).map
      (fun dt => .mk name required dt)

end

/-- `HashMap::insert` on an association list: replace any entry with the same
key. -/
def insertDef (defs : List (String × DataType)) (name : String) (dt : DataType) :
    List (String × DataType) :=
  (name, dt) :: defs.filter (fun e => e.1 ≠ name)

/-- One of the two definition loops of `parse_definitions` in src/parser.rs. -/
def parseDefList (fuel : Nat) (srcFile : String) (seg : String) (l : List (String × Schema))
    (acc : List (String × DataType)) : Option (List (String × DataType)) :=
  match l with
  | [] => some acc
  | (name, d) :: rest =>
    match parseType fuel (srcFile ++ "/" ++ seg ++ "/" ++ name) d none (some name) with
    | none => none
    | some dt => parseDefList fuel srcFile seg rest (insertDef acc name dt)

/-- Models `parse_definitions` in src/parser.rs: `$defs` first, then
`definitions` (later inserts of the same name win, as with `HashMap`). -/
def parseDefinitions (fuel : Nat) (src : String) (schema : Schema) :
    Option (List (String × DataType)) :=
  match parseDefList fuel src "$defs" schema.defs [] with
  | none => none
  | some d1 => parseDefList fuel src "definitions" schema.definitions d1

/-- Models `parse_from_string` in src/parser.rs (after the external serde
decode): build the definitions and the root data type, using the file path
string as the root `src`. -/
def parseFromString (fuel : Nat) (file : String) (schema : Schema) : Option Root :=
  match parseDefinitions fuel file schema with
  | none => none
  | some defs =>
    match parseType fuel file schema none none with
    | none => none
    | some dt => some ⟨file, dt, defs⟩

/-- The portion of a file name before its extension, per Rust `Path::file_stem`:
everything before the last '.', unless there is no '.' or the only '.' leads the
name. -/
def fileStem (fileName : String) : String :=
  let segs := splitString '.' fileName
  if segs.length ≤ 1 then fileName
  else
    let st := String.intercalate "." segs.dropLast
    if st = "" then fileName else st

/-- Models `PathBuf::with_extension("json")` on an ordinary relative path:
replace the final component's extension with `.json`. -/
def withExtensionJson (path : String) : String :=
  let comps := splitString '/' path
  let fileName := comps.getLastD ""
  if fileName = "" then path
  else String.intercalate "/" (comps.dropLast ++ [fileStem fileName ++ ".json"])

/-- Models `parse_from_file` in src/parser.rs: if the path does not exist
(`fs path = none`), retry the path with a `.json` extension; a read failure of
the selected path panics naming that path; a decode failure panics naming that
path.  `fs` models `fs::read_to_string` (with existence = readability) and
`decode` models the external serde decode of `parse_from_string`. -/
def parseFromFileM (fs : String → Option String) (decode : String → Option Schema)
    (fuel : Nat) (path : String) : Except GenErr Root :=
  let file :=
    match fs path with
    | some _ => path
    | none => withExtensionJson path
  match fs file with
  | none => .error (.fatal ("Could not open " ++ file))
  | some contents =>
    match decode contents with
    | none => .error (.fatal ("Could not parse " ++ file))
    | some schema =>
      match parseFromString fuel file schema with
      | none => .error .outOfFuel
      | some root => .ok root

/-- The generator-state invariant maintained by every run: distinct keys and
distinct values in `known_type_names`, distinct `src` keys and distinct
positions in `types`, and every stored record is keyed by its own `src`, named
by its `known_type_names` entry, and placed below `next_position`. -/
def Inv (s : GenState) : Prop :=
  (s.knownTypeNames.map Prod.fst).Nodup ∧
  (s.knownTypeNames.map Prod.snd).Nodup ∧
  (s.types.map (fun e => e.1)).Nodup ∧
  (s.types.map (fun e => e.2.1)).Nodup ∧
  (∀ e ∈ s.types, e.2.1 < s.nextPosition ∧ e.2.2.src = e.1 ∧
    alookup s.knownTypeNames e.1 = some e.2.2.name)

/-- How a generator state grows along a run: both tables grow by appending,
`next_position` is monotone, and every appended record carries a position at or
above the old `next_position` and a key that was unknown to the old name
table. -/
def Extends (s s' : GenState) : Prop :=
  (∃ t, s'.knownTypeNames = s.knownTypeNames ++ t) ∧
  (∃ t, s'.types = s.types ++ t ∧
    ∀ e ∈ t, s.nextPosition ≤ e.2.1 ∧ alookup s.knownTypeNames e.1 = none) ∧
  s.nextPosition ≤ s'.nextPosition

/-- The local-fragment shape the specification text prescribes for references:
exactly `/definitions/NAME` or `/$defs/NAME`. -/
def specLocalForm (s : String) : Prop :=
  ∃ nm : String, s = "/definitions/" ++ nm ∨ s = "/$defs/" ++ nm

/-- An environment with no files and identity sanitizers, for concrete runs of
the generator on in-memory data types. -/
def cfgId : GenEnv := ⟨fun _ => none, fun s => s, fun s => s⟩

def emptyRoot : Root := ⟨"", .any, []⟩

/-- A one-property object used in concrete runs, mirroring the test fixture
`object_with_property` of src/generator.rs. -/
def exObj : Object := .mk "d/x.json" "foo" [.mk "p" false (.primitiveType .string)]

def exRoot : Root := ⟨"d/x.json", .object exObj, []⟩

def cfgEx : GenEnv :=
  ⟨fun p => if p = "d/x.json" then some exRoot else none, fun s => s, fun s => s⟩

/-- The state produced by `addFile cfgEx 10 initState "d/x.json"`. -/
def exState : GenState :=
  ⟨[("d/x.json", 0, ⟨"d/x.json", "foo",
      [⟨"p", "Option<String>", ⟨none, some "Option::is_none"⟩⟩]⟩)], 1,
    [("d/x.json", "foo")]⟩

/-- A state whose name table already maps the source `"s"` to `"N"`, for
concrete reuse and boxing runs. -/
def knownState : GenState := ⟨[], 0, [("s", "N")]⟩

def knownObj : Object := .mk "s" "ignored" []

/-- A schema file whose definitions `a` and `b` are bare mutual `$ref`s: `a`
references `b` and `b` references `a`, with no object in the cycle. -/
def loopRoot : Root :=
  ⟨"d/loop.json", .ref "#/$defs/a",
    [("a", .ref "#/$defs/b"), ("b", .ref "#/$defs/a")]⟩

def cfgLoop : GenEnv :=
  ⟨fun p => if p = "d/loop.json" then some loopRoot else none, fun s => s, fun s => s⟩

/-- A root with a single definition `foo`, for concrete resolver runs. -/
def crRoot : Root := ⟨"c/r.json", .any, [("foo", .any)]⟩

/-- The decoded form of the JSON document `{"type":"string"}`. -/
def strSchema : Schema := .mk none none (some .string) none [] [] none [] [] [] [] []

/-- An environment whose only file `d/x.json` is the parse of
`{"type":"string"}`. -/
def cfgString : GenEnv :=
  ⟨fun p => if p = "d/x.json" then parseFromString 3 "d/x.json" strSchema else none,
   fun s => s, fun s => s⟩

/-- A file system containing only `a.json`, for the `.json`-fallback witness. -/
def fsW : String → Option String := fun p => if p = "a.json" then some "raw" else none

def decW : String → Option Schema := fun _ => none

/-- The mutual-cycle scenario of the repository's `should_detect_loops` test:
`loop1.json` holds the root object `Loop` (property `a` referencing
`#/definitions/b`) and definition `b` (property `c` referencing
`loop2.json#/definitions/c`); `loop2.json` holds definition `c` (property `b`
referencing `loop1.json#/definitions/b`). -/
def loop1Root : Root :=
  ⟨"d/loop1.json",
    .object (.mk "d/loop1.json" "Loop" [.mk "a" false (.ref "#/definitions/b")]),
    [("b", .object (.mk "ignored-b" "b" [.mk "c" false (.ref "loop2.json#/definitions/c")]))]⟩

def loop2Root : Root :=
  ⟨"d/loop2.json", .any,
    [("c", .object (.mk "ignored-c" "c" [.mk "b" false (.ref "loop1.json#/definitions/b")]))]⟩

/-- A struct-name sanitizer capitalizing the two definition names, standing in
for `sanitize_struct_name` on this example. -/
def sanitizeS4 : String → String :=
  fun s => if s = "b" then "B" else if s = "c" then "C" else s

def cfgS4 : GenEnv :=
  ⟨fun p =>
    if p = "d/loop1.json" then some loop1Root
    else if p = "d/loop2.json" then some loop2Root
    else none,
   sanitizeS4, fun s => s⟩

/-- The generator state after `addFile cfgS4 30 initState "d/loop1.json"`:
three records with first-encounter positions `Loop` 0, `B` 1, `C` 2, the record
table in completion order and the back-edge `C.b` boxed. -/
def s4State : GenState :=
  ⟨[("d/loop2.json#/definitions/c", 2, ⟨"d/loop2.json#/definitions/c", "C",
      [⟨"b", "Option<Box<B>>", ⟨none, some "Option::is_none"⟩⟩]⟩),
    ("d/loop1.json#/definitions/b", 1, ⟨"d/loop1.json#/definitions/b", "B",
      [⟨"c", "Option<C>", ⟨none, some "Option::is_none"⟩⟩]⟩),
    ("d/loop1.json", 0, ⟨"d/loop1.json", "Loop",
      [⟨"a", "Option<B>", ⟨none, some "Option::is_none"⟩⟩]⟩)],
   3,
   [("d/loop1.json", "Loop"), ("d/loop1.json#/definitions/b", "B"),
    ("d/loop2.json#/definitions/c", "C")]⟩

theorem alookup_append_some {α : Type} {l t : List (String × α)} {k : String} {v : α}
    (h : alookup l k = some v) : alookup (l ++ t) k = some v := by
  induction l with
  | nil => simp [alookup] at h
  | cons e rest ih =>
    obtain ⟨ek, ev⟩ := e
    by_cases hk : ek = k
    · simpa [alookup, hk] using by simpa [alookup, hk] using h
    · simp only [alookup, if_neg hk] at h
      simpa [alookup, hk] using ih h

theorem alookup_append_none {α : Type} {l : List (String × α)} {k : String}
    (t : List (String × α)) (h : alookup l k = none) :
    alookup (l ++ t) k = alookup t k := by
  induction l with
  | nil => simp
  | cons e rest ih =>
    obtain ⟨ek, ev⟩ := e
    by_cases hk : ek = k
    · simp [alookup, hk] at h
    · simp only [alookup, if_neg hk] at h
      simpa [alookup, hk] using ih h

theorem alookup_mem {α : Type} {l : List (String × α)} {k : String} {v : α}
    (h : alookup l k = some v) : (k, v) ∈ l := by
  induction l with
  | nil => simp [alookup] at h
  | cons e rest ih =>
    obtain ⟨ek, ev⟩ := e
    by_cases hk : ek = k
    · simp only [alookup, if_pos hk] at h
      subst hk
      simp [Option.some.injEq] at h
      simp [h]
    · simp only [alookup, if_neg hk] at h
      exact List.mem_cons_of_mem _ (ih h)

theorem alookup_none_iff {α : Type} {l : List (String × α)} {k : String} :
    alookup l k = none ↔ k ∉ l.map Prod.fst := by
  induction l with
  | nil => simp [alookup]
  | cons e rest ih =>
    obtain ⟨ek, ev⟩ := e
    by_cases hk : ek = k
    · subst hk; simp [alookup]
    · simp [alookup, hk, ih, Ne.symm hk]

theorem key_eq_of_mem_nodup_values {α : Type} [DecidableEq α] {l : List (String × α)}
    {k₁ k₂ : String} {v : α} (hnd : (l.map Prod.snd).Nodup)
    (h₁ : (k₁, v) ∈ l) (h₂ : (k₂, v) ∈ l) : k₁ = k₂ := by
  induction l with
  | nil => simp at h₁
  | cons e rest ih =>
    obtain ⟨ek, ev⟩ := e
    simp only [List.map_cons, List.nodup_cons] at hnd
    rcases List.mem_cons.mp h₁ with h₁' | h₁' <;>
      rcases List.mem_cons.mp h₂ with h₂' | h₂'
    · rw [Prod.mk.injEq] at h₁' h₂'
      rw [h₁'.1, h₂'.1]
    · exfalso
      apply hnd.1
      have : v = ev := (Prod.mk.injEq .. ▸ h₁').2.symm ▸ rfl
      have hv : ev = v := by
        have := congrArg Prod.snd h₁'.symm
        simpa using this
      rw [hv]
      exact List.mem_map_of_mem Prod.snd h₂'
    · exfalso
      apply hnd.1
      have hv : ev = v := by
        have := congrArg Prod.snd h₂'.symm
        simpa using this
      rw [hv]
      exact List.mem_map_of_mem Prod.snd h₁'
    · exact ih hnd.2 h₁' h₂'

theorem undigits_natDigitsAux : ∀ fuel n, n ≤ fuel → undigits (natDigitsAux fuel n) = n := by
  intro fuel
  induction fuel with
  | zero =>
    intro n hn
    interval_cases n
    simp [natDigitsAux, undigits]
  | succ m ih =>
    intro n hn
    match n with
    | 0 => simp [natDigitsAux, undigits]
    | k + 1 =>
      have hdiv : (k + 1) / 10 ≤ m := by
        have : (k + 1) / 10 < k + 1 := Nat.div_lt_self (Nat.succ_pos k) (by norm_num)
        omega
      have := ih ((k + 1) / 10) hdiv
      simp only [natDigitsAux, undigits, List.foldr_cons] at *
      rw [this]
      omega

theorem natDigitsAux_lt_ten : ∀ fuel n d, d ∈ natDigitsAux fuel n → d < 10 := by
  intro fuel
  induction fuel with
  | zero => intro n d hd; simp [natDigitsAux] at hd
  | succ m ih =>
    intro n d hd
    match n with
    | 0 => simp [natDigitsAux] at hd
    | k + 1 =>
      simp only [natDigitsAux, List.mem_cons] at hd
      rcases hd with h | h
      · subst h; exact Nat.mod_lt _ (by norm_num)
      · exact ih _ _ h

theorem charToDigit_digitChar : ∀ d < 10, charToDigit (Nat.digitChar d) = d := by decide

theorem map_digitChar_inj {l₁ l₂ : List Nat} (h₁ : ∀ d ∈ l₁, d < 10) (h₂ : ∀ d ∈ l₂, d < 10)
    (h : l₁.map Nat.digitChar = l₂.map Nat.digitChar) : l₁ = l₂ := by
  have recover : ∀ l : List Nat, (∀ d ∈ l, d < 10) →
      (l.map Nat.digitChar).map charToDigit = l := by
    intro l hl
    induction l with
    | nil => simp
    | cons d rest ih =>
      simp only [List.map_cons, List.cons.injEq]
      refine ⟨charToDigit_digitChar d (hl d (by simp)), ih (fun x hx => hl x (by simp [hx]))⟩
  calc l₁ = (l₁.map Nat.digitChar).map charToDigit := (recover l₁ h₁).symm
    _ = (l₂.map Nat.digitChar).map charToDigit := by rw [h]
    _ = l₂ := recover l₂ h₂

theorem natDecimal_inj : ∀ {a b : Nat}, 1 ≤ a → 1 ≤ b → natDecimal a = natDecimal b → a = b := by
  intro a b ha hb h
  match a, b with
  | a' + 1, b' + 1 =>
    simp only [natDecimal] at h
    have hdata := congrArg String.data h
    simp only [String.data] at hdata
    have hrev := map_digitChar_inj
      (fun d hd => natDigitsAux_lt_ten _ _ d (List.mem_reverse.mp hd))
      (fun d hd => natDigitsAux_lt_ten _ _ d (List.mem_reverse.mp hd)) hdata
    have hlists := List.reverse_injective hrev
    have u₁ := undigits_natDigitsAux (a' + 1) (a' + 1) (Nat.le_refl _)
    have u₂ := undigits_natDigitsAux (b' + 1) (b' + 1) (Nat.le_refl _)
    rw [← u₁, ← u₂, hlists]

theorem natDecimal_pos_ne_empty : ∀ n, 1 ≤ n → (natDecimal n).data ≠ [] := by
  intro n hn
  match n with
  | m + 1 =>
    simp only [natDecimal, String.data]
    simp [natDigitsAux]

theorem string_data_append (a b : String) : (a ++ b).data = a.data ++ b.data :=
  String.data_append a b

theorem string_ext {a b : String} (h : a.data = b.data) : a = b := by
  cases a with
  | mk da =>
    cases b with
    | mk db =>
      simp only at h
      rw [h]

theorem string_append_cancel_left {a b c : String} (h : a ++ b = a ++ c) : b = c := by
  have := congrArg String.data h
  rw [string_data_append, string_data_append] at this
  exact string_ext (List.append_cancel_left this)

theorem candidateName_inj (name : String) : Function.Injective (candidateName name) := by
  intro j k h
  match j, k with
  | 0, 0 => rfl
  | 0, k' + 1 =>
    exfalso
    simp only [candidateName] at h
    have hd := congrArg String.data h
    rw [string_data_append] at hd
    have hlen := congrArg List.length hd
    simp only [List.length_append] at hlen
    have hne := natDecimal_pos_ne_empty (k' + 1) (Nat.succ_le_succ (Nat.zero_le _))
    exact hne (List.length_eq_zero.mp (by omega))
  | j' + 1, 0 =>
    exfalso
    simp only [candidateName] at h
    have hd := congrArg String.data h
    rw [string_data_append] at hd
    have hlen := congrArg List.length hd
    simp only [List.length_append] at hlen
    have hne := natDecimal_pos_ne_empty (j' + 1) (Nat.succ_le_succ (Nat.zero_le _))
    exact hne (List.length_eq_zero.mp (by omega))
  | j' + 1, k' + 1 =>
    simp only [candidateName] at h
    exact natDecimal_inj (Nat.succ_le_succ (Nat.zero_le _)) (Nat.succ_le_succ (Nat.zero_le _))
      (string_append_cancel_left h)

theorem exists_free_candidate (used : List String) (name : String) :
    ∃ k ≤ used.length, candidateName name k ∉ used := by
  by_contra hcon
  push_neg at hcon
  have hsub : ∀ x ∈ (List.range (used.length + 1)).map (candidateName name), x ∈ used := by
    intro x hx
    obtain ⟨k, hk, rfl⟩ := List.mem_map.mp hx
    exact hcon k (Nat.lt_succ_iff.mp (List.mem_range.mp hk))
  have hnd : ((List.range (used.length + 1)).map (candidateName name)).Nodup :=
    (List.nodup_range _).map (candidateName_inj name)
  have hlen : ((List.range (used.length + 1)).map (candidateName name)).length =
      used.length + 1 := by simp
  have hcard₁ := List.toFinset_card_of_nodup hnd
  have hsubf : ((List.range (used.length + 1)).map (candidateName name)).toFinset ⊆
      used.toFinset := by
    intro x hx
    exact List.mem_toFinset.mpr (hsub x (List.mem_toFinset.mp hx))
  have := Finset.card_le_card hsubf
  have hcard₂ := List.toFinset_card_le used
  omega

theorem findFreeFrom_spec (used : List String) (name : String) :
    ∀ fuel k, (∃ j, k ≤ j ∧ j < k + fuel ∧ candidateName name j ∉ used) →
    ∃ j, k ≤ j ∧ findFreeFrom used name fuel k = candidateName name j ∧
      candidateName name j ∉ used ∧ ∀ i, k ≤ i → i < j → candidateName name i ∈ used := by
  intro fuel
  induction fuel with
  | zero =>
    intro k ⟨j, hj₁, hj₂, _⟩
    omega
  | succ m ih =>
    intro k ⟨j, hj₁, hj₂, hjfree⟩
    by_cases hm : candidateName name k ∈ used
    · have hjk : j ≠ k := by
        intro he; rw [he] at hjfree; exact hjfree hm
      obtain ⟨j', hj'₁, hj'eq, hj'free, hj'min⟩ :=
        ih (k + 1) ⟨j, by omega, by omega, hjfree⟩
      refine ⟨j', by omega, ?_, hj'free, ?_⟩
      · simpa [findFreeFrom, hm] using hj'eq
      · intro i hi₁ hi₂
        rcases Nat.eq_or_lt_of_le hi₁ with he | hlt
        · rw [← he]; exact hm
        · exact hj'min i hlt hi₂
    · exact ⟨k, Nat.le_refl _, by simp [findFreeFrom, hm], hm, fun i h₁ h₂ => absurd h₁ (by omega)⟩

theorem getCollisionFreeName_spec (known : List (String × String)) (name : String) :
    getCollisionFreeName known name ∉ known.map Prod.snd ∧
    ∃ k, getCollisionFreeName known name = candidateName name k ∧
      ∀ j < k, candidateName name j ∈ known.map Prod.snd := by
  obtain ⟨k, hk, hfree⟩ := exists_free_candidate (known.map Prod.snd) name
  have hex : ∃ j, 0 ≤ j ∧ j < 0 + (known.length + 1) ∧
      candidateName name j ∉ known.map Prod.snd := by
    refine ⟨k, Nat.zero_le _, ?_, hfree⟩
    simp only [List.length_map] at hk ⊢
    omega
  obtain ⟨j, _, heq, hjfree, hjmin⟩ :=
    findFreeFrom_spec (known.map Prod.snd) name (known.length + 1) 0 hex
  refine ⟨?_, j, ?_, ?_⟩
  · rw [getCollisionFreeName, heq]; exact hjfree
  · rw [getCollisionFreeName, heq]
  · intro i hi
    exact hjmin i (Nat.zero_le _) hi

theorem getCollisionFreeName_not_mem (known : List (String × String)) (name : String) :
    getCollisionFreeName known name ∉ known.map Prod.snd :=
  (getCollisionFreeName_spec known name).1

theorem extends_rfl (s : GenState) : Extends s s :=
  ⟨⟨[], by simp⟩, ⟨[], by simp, by simp⟩, Nat.le_refl _⟩

theorem extends_trans {s₁ s₂ s₃ : GenState} (h₁ : Extends s₁ s₂) (h₂ : Extends s₂ s₃) :
    Extends s₁ s₃ := by
  obtain ⟨⟨k₁, hk₁⟩, ⟨t₁, ht₁, htc₁⟩, hn₁⟩ := h₁
  obtain ⟨⟨k₂, hk₂⟩, ⟨t₂, ht₂, htc₂⟩, hn₂⟩ := h₂
  refine ⟨⟨k₁ ++ k₂, by rw [hk₂, hk₁, List.append_assoc]⟩,
    ⟨t₁ ++ t₂, by rw [ht₂, ht₁, List.append_assoc], ?_⟩, Nat.le_trans hn₁ hn₂⟩
  intro e he
  rcases List.mem_append.mp he with he' | he'
  · exact htc₁ e he'
  · have h2 := htc₂ e he'
    constructor
    · exact Nat.le_trans hn₁ h2.1
    · cases ho : alookup s₁.knownTypeNames e.1 with
      | none => rfl
      | some v =>
        exfalso
        have : alookup s₂.knownTypeNames e.1 = some v := by
          rw [hk₁]; exact alookup_append_some ho
        rw [this] at h2
        exact Option.noConfusion h2.2

theorem extends_known_some {s s' : GenState} (h : Extends s s') {k : String} {n : String}
    (hk : alookup s.knownTypeNames k = some n) : alookup s'.knownTypeNames k = some n := by
  obtain ⟨⟨t, ht⟩, _, _⟩ := h
  rw [ht]
  exact alookup_append_some hk

theorem extends_known_none {s s' : GenState} (h : Extends s s') {k : String}
    (hk : alookup s'.knownTypeNames k = none) : alookup s.knownTypeNames k = none := by
  cases ho : alookup s.knownTypeNames k with
  | none => rfl
  | some v =>
    rw [extends_known_some h ho] at hk
    exact Option.noConfusion hk

theorem genPreserve : ∀ fuel : Nat,
    (∀ cfg s basePath root so dt req v r s', Inv s →
      addType cfg fuel s basePath root so dt req v = .ok (r, s') → Inv s' ∧ Extends s s') ∧
    (∀ cfg s basePath root src obj v r s', Inv s →
      addObject cfg fuel s basePath root src obj v = .ok (r, s') → Inv s' ∧ Extends s s') ∧
    (∀ cfg s basePath root src obj v r s', Inv s →
      addObjectCore cfg fuel s basePath root src obj v = .ok (r, s') → Inv s' ∧ Extends s s') ∧
    (∀ cfg s basePath root p v gp s', Inv s →
      createProperty cfg fuel s basePath root p v = .ok (gp, s') → Inv s' ∧ Extends s s') ∧
    (∀ cfg s basePath root props v gps s', Inv s →
      createPropertyList cfg fuel s basePath root props v = .ok (gps, s') → Inv s' ∧ Extends s s') ∧
    (∀ cfg s basePath root ts s', Inv s →
      addDataTypeList cfg fuel s basePath root ts = .ok s' → Inv s' ∧ Extends s s') := by
  intro fuel
  induction fuel with
  | zero =>
    refine ⟨?_, ?_, ?_, ?_, ?_, ?_⟩
    · intro cfg s basePath root so dt req v r s' _ h
      exact Except.noConfusion h
    · intro cfg s basePath root src obj v r s' _ h
      exact Except.noConfusion h
    · intro cfg s basePath root src obj v r s' _ h
      exact Except.noConfusion h
    · intro cfg s basePath root p v gp s' _ h
      exact Except.noConfusion h
    · intro cfg s basePath root props v gps s' _ h
      exact Except.noConfusion h
    · intro cfg s basePath root ts s' _ h
      exact Except.noConfusion h
  | succ n IH =>
    obtain ⟨ihT, ihO, ihOC, ihP, ihPL, ihDL⟩ := IH
    have hDL : ∀ cfg s basePath root ts s', Inv s →
        addDataTypeList cfg (n + 1) s basePath root ts = .ok s' → Inv s' ∧ Extends s s' := by
      intro cfg s basePath root ts s' hInv h
      match ts with
      | [] =>
        simp only [addDataTypeList] at h
        cases h
        exact ⟨hInv, extends_rfl s⟩
      | dt :: rest =>
        simp only [addDataTypeList] at h
        cases hrec : addType cfg n s basePath root none dt false [] with
        | error e => rw [hrec] at h; exact Except.noConfusion h
        | ok p =>
          obtain ⟨t, s₂⟩ := p
          rw [hrec] at h
          simp only at h
          obtain ⟨hInv₂, hExt₂⟩ := ihT cfg s basePath root none dt false [] t s₂ hInv hrec
          obtain ⟨hInv₃, hExt₃⟩ := ihDL cfg s₂ basePath root rest s' hInv₂ h
          exact ⟨hInv₃, extends_trans hExt₂ hExt₃⟩
    have hP : ∀ cfg s basePath root p v gp s', Inv s →
        createProperty cfg (n + 1) s basePath root p v = .ok (gp, s') → Inv s' ∧ Extends s s' := by
      intro cfg s basePath root p v gp s' hInv h
      simp only [createProperty] at h
      cases hrec : addType cfg n s basePath root none p.dataType p.required v with
      | error e => rw [hrec] at h; exact Except.noConfusion h
      | ok q =>
        obtain ⟨t, s₂⟩ := q
        rw [hrec] at h
        simp only [Except.ok.injEq, Prod.mk.injEq] at h
        obtain ⟨-, rfl⟩ := h
        exact ihT cfg s basePath root none p.dataType p.required v t s₂ hInv hrec
    have hPL : ∀ cfg s basePath root props v gps s', Inv s →
        createPropertyList cfg (n + 1) s basePath root props v = .ok (gps, s') →
        Inv s' ∧ Extends s s' := by
      intro cfg s basePath root props v gps s' hInv h
      match props with
      | [] =>
        simp only [createPropertyList, Except.ok.injEq, Prod.mk.injEq] at h
        obtain ⟨-, rfl⟩ := h
        exact ⟨hInv, extends_rfl s⟩
      | p :: rest =>
        simp only [createPropertyList] at h
        cases hrec : createProperty cfg n s basePath root p v with
        | error e => rw [hrec] at h; exact Except.noConfusion h
        | ok q =>
          obtain ⟨gp, s₂⟩ := q
          rw [hrec] at h
          simp only at h
          cases hrec₂ : createPropertyList cfg n s₂ basePath root rest v with
          | error e => rw [hrec₂] at h; exact Except.noConfusion h
          | ok q₂ =>
            obtain ⟨gps₂, s₃⟩ := q₂
            rw [hrec₂] at h
            simp only [Except.ok.injEq, Prod.mk.injEq] at h
            obtain ⟨-, rfl⟩ := h
            obtain ⟨hInv₂, hExt₂⟩ := ihP cfg s basePath root p v gp s₂ hInv hrec
            obtain ⟨hInv₃, hExt₃⟩ := ihPL cfg s₂ basePath root rest v gps₂ s₃ hInv₂ hrec₂
            exact ⟨hInv₃, extends_trans hExt₂ hExt₃⟩
    have hOC : ∀ cfg s basePath root src obj v r s', Inv s →
        addObjectCore cfg (n + 1) s basePath root src obj v = .ok (r, s') →
        Inv s' ∧ Extends s s' := by
      intro cfg s basePath root src obj v r s' hInv h
      simp only [addObjectCore] at h
      cases hk : alookup s.knownTypeNames src with
      | some name =>
        rw [hk] at h
        simp only [Except.ok.injEq, Prod.mk.injEq] at h
        obtain ⟨-, rfl⟩ := h
        exact ⟨hInv, extends_rfl s⟩
      | none =>
        rw [hk] at h
        simp only at h
        cases ht : alookup s.types src with
        | some pr =>
          rw [ht] at h
          simp only [Except.ok.injEq, Prod.mk.injEq] at h
          obtain ⟨-, rfl⟩ := h
          exact ⟨hInv, extends_rfl s⟩
        | none =>
          rw [ht] at h
          simp only at h
          set nm := getCollisionFreeName s.knownTypeNames (cfg.sanitizeStructName obj.name)
            with hnm
          set s2 : GenState :=
            { s with
              nextPosition := s.nextPosition + 1
              knownTypeNames := s.knownTypeNames ++ [(src, nm)] } with hs2
          obtain ⟨hKF, hKV, hTK, hTP, hTE⟩ := hInv
          have hsrcNotKey : src ∉ s.knownTypeNames.map Prod.fst := alookup_none_iff.mp hk
          have hsrcNotTypes : src ∉ s.types.map (fun e => e.1) := by
            have := alookup_none_iff.mp ht
            simpa using this
          have hInv2 : Inv s2 := by
            refine ⟨?_, ?_, ?_, ?_, ?_⟩
            · rw [hs2]
              simp only [List.map_append, List.map_cons, List.map_nil]
              rw [List.nodup_append]
              exact ⟨hKF, List.nodup_singleton src, by simpa using hsrcNotKey⟩
            · rw [hs2]
              simp only [List.map_append, List.map_cons, List.map_nil]
              rw [List.nodup_append]
              refine ⟨hKV, List.nodup_singleton nm, ?_⟩
              intro a ha hb
              simp only [List.mem_singleton] at hb
              subst hb
              exact getCollisionFreeName_not_mem s.knownTypeNames
                (cfg.sanitizeStructName obj.name) ha
            · exact hTK
            · exact hTP
            · intro e he
              obtain ⟨he₁, he₂, he₃⟩ := hTE e he
              exact ⟨Nat.lt_succ_of_lt he₁, he₂, alookup_append_some he₃⟩
          have hExt2 : Extends s s2 := by
            refine ⟨⟨[(src, nm)], rfl⟩, ⟨[], by simp, by simp⟩, Nat.le_succ _⟩
          cases hcpl : createPropertyList cfg n s2 basePath root obj.properties (v ++ [src]) with
          | error e => rw [hcpl] at h; exact Except.noConfusion h
          | ok q =>
            obtain ⟨props, s3⟩ := q
            rw [hcpl] at h
            simp only [Except.ok.injEq, Prod.mk.injEq] at h
            obtain ⟨-, rfl⟩ := h
            obtain ⟨hInv3, hExt23⟩ := ihPL cfg s2 basePath root obj.properties (v ++ [src])
              props s3 hInv2 hcpl
            obtain ⟨⟨tk, htk⟩, ⟨tt, htt, httc⟩, hnp23⟩ := hExt23
            have hs2types : s2.types = s.types := rfl
            have hs2next : s2.nextPosition = s.nextPosition + 1 := rfl
            have hs2known : s2.knownTypeNames = s.knownTypeNames ++ [(src, nm)] := rfl
            have hsrcKnown2 : alookup s2.knownTypeNames src = some nm := by
              rw [hs2known, alookup_append_none _ hk]
              simp [alookup]
            have hsrcKnown3 : alookup s3.knownTypeNames src = some nm := by
              rw [htk]
              exact alookup_append_some hsrcKnown2
            have httKeys : ∀ e ∈ tt, e.1 ≠ src := by
              intro e he heq
              have := (httc e he).2
              rw [heq, hsrcKnown2] at this
              exact Option.noConfusion this
            have httPos : ∀ e ∈ tt, s.nextPosition + 1 ≤ e.2.1 := by
              intro e he
              have := (httc e he).1
              rwa [hs2next] at this
            have hs3types : s3.types = s.types ++ tt := by rw [htt, hs2types]
            obtain ⟨hKF3, hKV3, hTK3, hTP3, hTE3⟩ := hInv3
            have hnext3 : s.nextPosition + 1 ≤ s3.nextPosition := by
              rw [← hs2next]; exact hnp23
            constructor
            · -- Inv of the final state
              refine ⟨hKF3, hKV3, ?_, ?_, ?_⟩
              · simp only [List.map_append, List.map_cons, List.map_nil]
                rw [List.nodup_append]
                refine ⟨hTK3, List.nodup_singleton src, ?_⟩
                intro a ha hb
                simp only [List.mem_singleton] at hb
                subst hb
                rw [hs3types] at ha
                simp only [List.map_append, List.mem_append] at ha
                rcases ha with ha | ha
                · exact hsrcNotTypes ha
                · obtain ⟨e, he, heq⟩ := List.mem_map.mp ha
                  exact httKeys e he heq
              · simp only [List.map_append, List.map_cons, List.map_nil]
                rw [List.nodup_append]
                refine ⟨hTP3, List.nodup_singleton _, ?_⟩
                intro a ha hb
                simp only [List.mem_singleton] at hb
                subst hb
                rw [hs3types] at ha
                simp only [List.map_append, List.mem_append] at ha
                rcases ha with ha | ha
                · obtain ⟨e, he, heq⟩ := List.mem_map.mp ha
                  have := (hTE e he).1
                  omega
                · obtain ⟨e, he, heq⟩ := List.mem_map.mp ha
                  have := httPos e he
                  omega
              · intro e he
                rcases List.mem_append.mp he with he' | he'
                · exact hTE3 e he'
                · simp only [List.mem_singleton] at he'
                  subst he'
                  refine ⟨by simpa using hnext3, rfl, hsrcKnown3⟩
            · -- Extends from s to the final state
              refine ⟨⟨[(src, nm)] ++ tk, by rw [htk, hs2known, List.append_assoc]⟩,
                ⟨tt ++ [(src, s.nextPosition, ⟨src, nm, props⟩)], ?_, ?_⟩, ?_⟩
              · simp only [hs3types, List.append_assoc]
              · intro e he
                rcases List.mem_append.mp he with he' | he'
                · refine ⟨by have := httPos e he'; omega, ?_⟩
                  cases ho : alookup s.knownTypeNames e.1 with
                  | none => rfl
                  | some w =>
                    exfalso
                    have : alookup s2.knownTypeNames e.1 = some w := by
                      rw [hs2known]; exact alookup_append_some ho
                    rw [(httc e he').2] at this
                    exact Option.noConfusion this
                · simp only [List.mem_singleton] at he'
                  subst he'
                  exact ⟨Nat.le_refl _, hk⟩
              · simp only
                omega
    have hO : ∀ cfg s basePath root src obj v r s', Inv s →
        addObject cfg (n + 1) s basePath root src obj v = .ok (r, s') →
        Inv s' ∧ Extends s s' := by
      intro cfg s basePath root src obj v r s' hInv h
      simp only [addObject] at h
      cases hcore : addObjectCore cfg n s basePath root src obj
          (if v.contains src then [] else v) with
      | error e => rw [hcore] at h; exact Except.noConfusion h
      | ok q =>
        obtain ⟨name, s₂⟩ := q
        rw [hcore] at h
        simp only [Except.ok.injEq, Prod.mk.injEq] at h
        obtain ⟨-, rfl⟩ := h
        exact ihOC cfg s basePath root src obj _ name s₂ hInv hcore
    have hT : ∀ cfg s basePath root so dt req v r s', Inv s →
        addType cfg (n + 1) s basePath root so dt req v = .ok (r, s') →
        Inv s' ∧ Extends s s' := by
      intro cfg s basePath root so dt req v r s' hInv h
      cases dt with
      | primitiveType p =>
        simp only [addType, Except.ok.injEq, Prod.mk.injEq] at h
        obtain ⟨-, rfl⟩ := h
        exact ⟨hInv, extends_rfl s⟩
      | any =>
        simp only [addType, Except.ok.injEq, Prod.mk.injEq] at h
        obtain ⟨-, rfl⟩ := h
        exact ⟨hInv, extends_rfl s⟩
      | array items =>
        simp only [addType] at h
        cases hrec : addType cfg n s basePath root so items true [] with
        | error e => rw [hrec] at h; exact Except.noConfusion h
        | ok q =>
          obtain ⟨t, s₂⟩ := q
          rw [hrec] at h
          simp only [Except.ok.injEq, Prod.mk.injEq] at h
          obtain ⟨-, rfl⟩ := h
          exact ihT cfg s basePath root so items true [] t s₂ hInv hrec
      | map value =>
        simp only [addType] at h
        cases hrec : addType cfg n s basePath root none value true [] with
        | error e => rw [hrec] at h; exact Except.noConfusion h
        | ok q =>
          obtain ⟨t, s₂⟩ := q
          rw [hrec] at h
          simp only [Except.ok.injEq, Prod.mk.injEq] at h
          obtain ⟨-, rfl⟩ := h
          exact ihT cfg s basePath root none value true [] t s₂ hInv hrec
      | object obj =>
        simp only [addType] at h
        cases hrec : addObject cfg n s basePath root (so.getD obj.src) obj v with
        | error e => rw [hrec] at h; exact Except.noConfusion h
        | ok q =>
          obtain ⟨t, s₂⟩ := q
          rw [hrec] at h
          simp only [Except.ok.injEq, Prod.mk.injEq] at h
          obtain ⟨-, rfl⟩ := h
          exact ihO cfg s basePath root (so.getD obj.src) obj v t s₂ hInv hrec
      | ref refPath =>
        simp only [addType] at h
        cases hres : resolve cfg.files root refPath with
        | error e => rw [hres] at h; exact Except.noConfusion h
        | ok res =>
          rw [hres] at h
          simp only at h
          cases hrec : addType cfg n s basePath res.root
              (some (match res.path with
                     | some p => res.root.file ++ "#" ++ p
                     | none => res.root.file)) res.dataType true v with
          | error e => rw [hrec] at h; exact Except.noConfusion h
          | ok q =>
            obtain ⟨t, s₂⟩ := q
            rw [hrec] at h
            simp only [Except.ok.injEq, Prod.mk.injEq] at h
            obtain ⟨-, rfl⟩ := h
            exact ihT cfg s basePath res.root _ res.dataType true v t s₂ hInv hrec
      | oneOf ts =>
        simp only [addType] at h
        cases hrec : addDataTypeList cfg n s basePath root ts with
        | error e => rw [hrec] at h; exact Except.noConfusion h
        | ok s₂ =>
          rw [hrec] at h
          simp only [Except.ok.injEq, Prod.mk.injEq] at h
          obtain ⟨-, rfl⟩ := h
          exact ihDL cfg s basePath root ts s₂ hInv hrec
      | anyOf ts =>
        simp only [addType] at h
        cases hrec : addDataTypeList cfg n s basePath root ts with
        | error e => rw [hrec] at h; exact Except.noConfusion h
        | ok s₂ =>
          rw [hrec] at h
          simp only [Except.ok.injEq, Prod.mk.injEq] at h
          obtain ⟨-, rfl⟩ := h
          exact ihDL cfg s basePath root ts s₂ hInv hrec
      | allOf ts =>
        simp only [addType] at h
        cases hrec : addDataTypeList cfg n s basePath root ts with
        | error e => rw [hrec] at h; exact Except.noConfusion h
        | ok s₂ =>
          rw [hrec] at h
          simp only [Except.ok.injEq, Prod.mk.injEq] at h
          obtain ⟨-, rfl⟩ := h
          exact ihDL cfg s basePath root ts s₂ hInv hrec
    exact ⟨hT, hO, hOC, hP, hPL, hDL⟩

theorem inv_initState : Inv initState := by
  refine ⟨?_, ?_, ?_, ?_, ?_⟩ <;> simp [initState]

theorem addFile_inv {cfg : GenEnv} {fuel : Nat} {path r : String} {s' : GenState}
    (h : addFile cfg fuel initState path = .ok (r, s')) : Inv s' := by
  unfold addFile at h
  cases hp : parentPath path with
  | none => rw [hp] at h; exact Except.noConfusion h
  | some basePath =>
    rw [hp] at h
    cases hf : cfg.files path with
    | none => rw [hf] at h; exact Except.noConfusion h
    | some root =>
      rw [hf] at h
      exact ((genPreserve fuel).1 cfg initState basePath root none root.dataType false []
        r s' inv_initState h).1

theorem inv_names_nodup {s : GenState} (h : Inv s) :
    (s.types.map (fun e => e.2.2.name)).Nodup := by
  obtain ⟨hKF, hKV, hTK, hTP, hTE⟩ := h
  have hkeys : List.Pairwise (fun a b : TypesEntry => a.1 ≠ b.1) s.types := by
    rwa [List.Nodup, List.pairwise_map] at hTK
  have hnames : List.Pairwise (fun a b : TypesEntry => a.2.2.name ≠ b.2.2.name) s.types := by
    refine hkeys.imp_of_mem ?_
    intro a b ha hb hne heq
    obtain ⟨-, -, hla⟩ := hTE a ha
    obtain ⟨-, -, hlb⟩ := hTE b hb
    apply hne
    refine key_eq_of_mem_nodup_values hKV (alookup_mem hla) ?_
    rw [heq]
    exact alookup_mem hlb
  rwa [List.Nodup, List.pairwise_map]

theorem finalizeEntries_perm (l : List TypesEntry) : List.Perm (finalizeEntries l) l :=
  List.perm_insertionSort posLE l

theorem finalizeEntries_sorted_le (l : List TypesEntry) :
    List.Sorted posLE (finalizeEntries l) :=
  List.sorted_insertionSort posLE l

theorem sorted_lt_of_sorted_le_nodup {l : List TypesEntry}
    (hs : List.Sorted posLE l) (hn : (l.map (fun e => e.2.1)).Nodup) :
    List.Sorted posLT l := by
  have hne : List.Pairwise (fun a b : TypesEntry => a.2.1 ≠ b.2.1) l := by
    rwa [List.Nodup, List.pairwise_map] at hn
  have hand := (List.Pairwise.and hs hne : List.Pairwise _ l)
  exact hand.imp (fun h => Nat.lt_of_le_of_ne h.1 h.2)

theorem finalizeEntries_sorted_lt {l : List TypesEntry}
    (hn : (l.map (fun e => e.2.1)).Nodup) : List.Sorted posLT (finalizeEntries l) := by
  refine sorted_lt_of_sorted_le_nodup (finalizeEntries_sorted_le l) ?_
  have hp := (finalizeEntries_perm l).map (fun e : TypesEntry => e.2.1)
  exact hp.nodup_iff.mpr hn

theorem finalizeEntries_eq_of_perm {base l₁ l₂ : List TypesEntry}
    (hp₁ : List.Perm l₁ base) (hp₂ : List.Perm l₂ base)
    (hn : (base.map (fun e => e.2.1)).Nodup) :
    finalizeEntries l₁ = finalizeEntries l₂ := by
  have hn₁ : (l₁.map (fun e => e.2.1)).Nodup := (hp₁.map _).nodup_iff.mpr hn
  have hn₂ : (l₂.map (fun e => e.2.1)).Nodup := (hp₂.map _).nodup_iff.mpr hn
  have hperm : List.Perm (finalizeEntries l₁) (finalizeEntries l₂) :=
    ((finalizeEntries_perm l₁).trans (hp₁.trans hp₂.symm)).trans
      (finalizeEntries_perm l₂).symm
  exact List.eq_of_perm_of_sorted hperm (finalizeEntries_sorted_lt hn₁)
    (finalizeEntries_sorted_lt hn₂)

/-- C1 (counterexample): with `required = false`, `add_type` wraps the dynamic
fallback, arrays and maps in `Option<...>` (the claim asserts these are not
wrapped): for the inputs `Any`, `Array(Any)` and `Map(Any)` the code returns
`Option<Value>`, `Option<Vec<Value>>` and `Option<BTreeMap<String, Value>>`. -/
theorem C1_counterexample :
    addType cfgId 1 initState "" emptyRoot none .any false [] =
      .ok ("Option<Value>", initState) ∧
    addType cfgId 2 initState "" emptyRoot none (.array .any) false [] =
      .ok ("Option<Vec<Value>>", initState) ∧
    addType cfgId 2 initState "" emptyRoot none (.map .any) false [] =
      .ok ("Option<BTreeMap<String, Value>>", initState) :=
  ⟨rfl, rfl, rfl⟩

/-- C1 (amended): for every property materialized with `required = false`,
`add_type` wraps the returned type reference in `Option<...>` uniformly for
every `DataType` — Primitive, Object, Array, Map, Ref, the OneOf / AnyOf /
AllOf fallback and Any alike — and with `required = true` the reference is
always bare: the `required = false` run is exactly the `required = true` run
with `Option<...>` wrapped around the returned reference. -/
theorem C1_optional_always_wraps :
    ∀ cfg fuel s basePath root so dt v,
      addType cfg fuel s basePath root so dt false v =
        Except.map (fun p : String × GenState => ("Option<" ++ p.1 ++ ">", p.2))
          (addType cfg fuel s basePath root so dt true v) := by
  intro cfg fuel s basePath root so dt v
  cases fuel with
  | zero => rfl
  | succ n =>
    cases dt with
    | primitiveType p => rfl
    | any => rfl
    | array items =>
      simp only [addType]
      cases addType cfg n s basePath root so items true [] with
      | error e => rfl
      | ok q => obtain ⟨t, s₂⟩ := q; rfl
    | map value =>
      simp only [addType]
      cases addType cfg n s basePath root none value true [] with
      | error e => rfl
      | ok q => obtain ⟨t, s₂⟩ := q; rfl
    | object obj =>
      simp only [addType]
      cases addObject cfg n s basePath root (so.getD obj.src) obj v with
      | error e => rfl
      | ok q => obtain ⟨t, s₂⟩ := q; rfl
    | ref refPath =>
      simp only [addType]
      cases resolve cfg.files root refPath with
      | error e => rfl
      | ok res =>
        simp only
        cases addType cfg n s basePath res.root
            (some (match res.path with
                   | some p => res.root.file ++ "#" ++ p
                   | none => res.root.file)) res.dataType true v with
        | error e => rfl
        | ok q => obtain ⟨t, s₂⟩ := q; rfl
    | oneOf ts =>
      simp only [addType]
      cases addDataTypeList cfg n s basePath root ts with
      | error e => rfl
      | ok s₂ => rfl
    | anyOf ts =>
      simp only [addType]
      cases addDataTypeList cfg n s basePath root ts with
      | error e => rfl
      | ok s₂ => rfl
    | allOf ts =>
      simp only [addType]
      cases addDataTypeList cfg n s basePath root ts with
      | error e => rfl
      | ok s₂ => rfl

/-- C2: `add_object` returns a `Box<...>`-marked reference exactly when the
`src` is on the `visited_objects` stack on entry (a back-edge): with `src` on
the stack the run equals the stack-free run with `Box<...>` wrapped around the
name, and with `src` off the stack an already-named `src` yields the plain
registered name with the state untouched. -/
theorem C2_boxed_iff_backedge :
    (∀ cfg fuel s basePath root src obj v, v.contains src = true →
      addObject cfg fuel s basePath root src obj v =
        Except.map (fun p : String × GenState => ("Box<" ++ p.1 ++ ">", p.2))
          (addObject cfg fuel s basePath root src obj [])) ∧
    (∀ cfg fuel s basePath root src obj v n, v.contains src = false →
      alookup s.knownTypeNames src = some n →
      addObject cfg (fuel + 2) s basePath root src obj v = .ok (n, s)) := by
  constructor
  · intro cfg fuel s basePath root src obj v hv
    cases fuel with
    | zero => rfl
    | succ m =>
      simp only [addObject, hv, List.contains_nil, Bool.false_eq_true, if_false, if_true]
      cases addObjectCore cfg m s basePath root src obj [] with
      | error e => rfl
      | ok q => obtain ⟨nm, s₂⟩ := q; rfl
  · intro cfg fuel s basePath root src obj v n hv hk
    simp only [addObject, addObjectCore, hv, hk, Bool.false_eq_true, if_false]

/-- C3: on a schema whose definitions are bare mutually-referencing `$ref`s
(definition `a` references `b` and `b` references `a`, with no object between
them), `add_type` bounces between the two `Ref` branches for ever: for every
fuel the run ends in `outOfFuel`, i.e. the source recursion never returns. -/
theorem C3_ref_cycle_diverges :
    ∀ fuel, addFile cfgLoop fuel initState "d/loop.json" = .error .outOfFuel := by
  have main : ∀ fuel : Nat, ∀ s so req v,
      addType cfgLoop fuel s "d" loopRoot so (.ref "#/$defs/a") req v = .error .outOfFuel ∧
      addType cfgLoop fuel s "d" loopRoot so (.ref "#/$defs/b") req v = .error .outOfFuel := by
    intro fuel
    induction fuel with
    | zero => intro s so req v; exact ⟨rfl, rfl⟩
    | succ n ih =>
      intro s so req v
      constructor
      · have hres : resolve cfgLoop.files loopRoot "#/$defs/a" =
            .ok ⟨loopRoot, some "/$defs/a", .ref "#/$defs/b"⟩ := rfl
        simp only [addType, hres]
        rw [show addType cfgLoop n s "d" loopRoot (some (loopRoot.file ++ "#" ++ "/$defs/a"))
            (.ref "#/$defs/b") true v = .error .outOfFuel from
          (ih s (some (loopRoot.file ++ "#" ++ "/$defs/a")) true v).2]
      · have hres : resolve cfgLoop.files loopRoot "#/$defs/b" =
            .ok ⟨loopRoot, some "/$defs/b", .ref "#/$defs/a"⟩ := rfl
        simp only [addType, hres]
        rw [show addType cfgLoop n s "d" loopRoot (some (loopRoot.file ++ "#" ++ "/$defs/b"))
            (.ref "#/$defs/a") true v = .error .outOfFuel from
          (ih s (some (loopRoot.file ++ "#" ++ "/$defs/b")) true v).1]
  intro fuel
  exact (main fuel initState none false []).1

/-- C4: each distinct `src` yields at most one record.  A later encounter of an
already-named `src` returns the already-chosen name (boxed exactly on a
back-edge) with the state — positions, records and names — completely
unchanged, and after any complete run from the initial state the `types` table
holds pairwise-distinct `src` keys. -/
theorem C4_one_record_per_src :
    (∀ cfg fuel s basePath root src obj v n,
      alookup s.knownTypeNames src = some n →
      addObject cfg (fuel + 2) s basePath root src obj v =
        .ok ((if v.contains src then "Box<" ++ n ++ ">" else n), s)) ∧
    (∀ cfg fuel path r s', addFile cfg fuel initState path = .ok (r, s') →
      (s'.types.map (fun e => e.1)).Nodup) := by
  constructor
  · intro cfg fuel s basePath root src obj v n hk
    cases hv : v.contains src with
    | true => simp only [addObject, addObjectCore, hv, hk, if_true]
    | false => simp only [addObject, addObjectCore, hv, hk, Bool.false_eq_true, if_false]
  · intro cfg fuel path r s' h
    exact (addFile_inv h).2.2.1

/-- C5: every emitted record's final name is distinct from every other's, and a
fresh record's name is the sanitized object name with the smallest numeric
suffix (none, then 1, 2, ...) that collides with no name already registered in
`known_type_names`. -/
theorem C5_unique_names :
    (∀ cfg fuel path r s', addFile cfg fuel initState path = .ok (r, s') →
      (s'.types.map (fun e => e.2.2.name)).Nodup) ∧
    (∀ known name,
      getCollisionFreeName known name ∉ known.map Prod.snd ∧
      ∃ k, getCollisionFreeName known name = candidateName name k ∧
        ∀ j < k, candidateName name j ∈ known.map Prod.snd) := by
  refine ⟨fun cfg fuel path r s' h => inv_names_nodup (addFile_inv h), fun known name => ?_⟩
  obtain ⟨h₁, h₂⟩ := getCollisionFreeName_spec known name
  exact ⟨h₁, h₂⟩

/-- C6: the finalized list is the `types` table sorted by strictly ascending
position, regardless of the enumeration (hash-map iteration) order `l` of the
table; positions come from the monotone `next_position` counter, so ascending
position order is first-encounter order. -/
theorem C6_output_sorted_by_position :
    ∀ cfg fuel path r s' l, addFile cfg fuel initState path = .ok (r, s') →
      List.Perm l s'.types →
      List.Sorted posLT (finalizeEntries l) ∧ finalizeEntries l = finalizeEntries s'.types := by
  intro cfg fuel path r s' l h hp
  have hInv := addFile_inv h
  have hnd : (s'.types.map (fun e => e.2.1)).Nodup := hInv.2.2.2.1
  have hndl : (l.map (fun e => e.2.1)).Nodup := (hp.map _).nodup_iff.mpr hnd
  exact ⟨finalizeEntries_sorted_lt hndl,
    finalizeEntries_eq_of_perm hp (List.Perm.refl _) hnd⟩

/-- C7: determinism of the emitted sequence.  The pipeline is a pure function
of its input, and the one internal source of nondeterminism in the source — the
`HashMap` iteration order collected before sorting — does not influence the
output: any two enumerations of the `types` table of a completed run finalize
to the same entry sequence, with the same `(src, name, position)` triples,
property orders and property type references. -/
theorem C7_two_run_determinism :
    ∀ cfg fuel path r s' l₁ l₂, addFile cfg fuel initState path = .ok (r, s') →
      List.Perm l₁ s'.types → List.Perm l₂ s'.types →
      finalizeEntries l₁ = finalizeEntries l₂ := by
  intro cfg fuel path r s' l₁ l₂ h hp₁ hp₂
  exact finalizeEntries_eq_of_perm hp₁ hp₂ (addFile_inv h).2.2.2.1

/-- C8 (counterexample): the fragment `definitions/foo` (no leading slash) is
not of the form `/definitions/NAME` or `/$defs/NAME` that the claim requires,
yet `resolve` succeeds on it instead of raising the claimed fatal error. -/
theorem C8_counterexample :
    resolve (fun _ => none) crRoot "#definitions/foo" =
      .ok ⟨crRoot, some "definitions/foo", .any⟩ ∧
    ¬ specLocalForm "definitions/foo" := by
  constructor
  · rfl
  · rintro ⟨nm, h | h⟩
    · have hd := congrArg String.data h
      rw [string_data_append] at hd
      have h2 := congrArg List.head? hd
      have h3 : (some 'd' : Option Char) = some '/' := h2
      exact absurd h3 (by decide)
    · have hd := congrArg String.data h
      rw [string_data_append] at hd
      have h2 := congrArg List.head? hd
      have h3 : (some 'd' : Option Char) = some '/' := h2
      exact absurd h3 (by decide)

/-- C8 (amended): for a reference whose local part is present, resolution
succeeds with the `DataType` stored under the trailing name in the target
root's definitions exactly when the local part's nonempty slash-separated
segments are exactly `[definitions, NAME]` or `[$defs, NAME]` with `NAME`
present in the definitions (so `/definitions/NAME` and `/$defs/NAME` qualify,
but so do shapes such as `definitions/NAME` without the leading slash); every
other shape, and a well-formed fragment whose name is absent, is a fatal
error; the empty reference resolves to the current root's top-level data type
with `path = None`. -/
theorem C8_resolution_characterization :
    (∀ (files : String → Option Root) (root : Root) (refStr p : String),
      parseRef refStr = .ok ⟨none, some p⟩ →
      resolve files root refStr =
        (derefModel p root.definitions).map (fun dt => ⟨root, some p, dt⟩)) ∧
    (∀ (p : String) (defs : List (String × DataType)) (a b : String),
      refSegs p = [a, b] → (a = "definitions" ∨ a = "$defs") →
      derefModel p defs =
        match alookup defs b with
        | some dt => .ok dt
        | none => .error (.fatal ("No local definition for " ++ p ++ " found"))) ∧
    (∀ (p : String) (defs : List (String × DataType)) (dt : DataType),
      derefModel p defs = .ok dt →
      ∃ a b, refSegs p = [a, b] ∧ (a = "definitions" ∨ a = "$defs") ∧
        alookup defs b = some dt) ∧
    (∀ (files : String → Option Root) (root : Root),
      resolve files root "" = .ok ⟨root, none, root.dataType⟩) := by
  refine ⟨?_, ?_, ?_, ?_⟩
  · intro files root refStr p h
    unfold resolve
    rw [h]
    simp only
    cases derefModel p root.definitions with
    | error e => rfl
    | ok dt => rfl
  · intro p defs a b hsegs hab
    unfold derefModel
    rw [hsegs]
    rcases hab with h | h <;> subst h <;> simp
  · intro p defs dt h
    unfold derefModel at h
    cases hsegs : refSegs p with
    | nil => rw [hsegs] at h; exact Except.noConfusion h
    | cons a rest =>
      cases rest with
      | nil => rw [hsegs] at h; exact Except.noConfusion h
      | cons b rest2 =>
        cases rest2 with
        | cons c rest3 => rw [hsegs] at h; exact Except.noConfusion h
        | nil =>
          rw [hsegs] at h
          simp only at h
          split at h
          · exact Except.noConfusion h
          · rename_i hcond
            cases halo : alookup defs b with
            | none => rw [halo] at h; exact Except.noConfusion h
            | some dt' =>
              rw [halo] at h
              simp only [Except.ok.injEq] at h
              subst h
              have hab : a = "definitions" ∨ a = "$defs" := by
                by_cases h1 : a = "definitions"
                · exact Or.inl h1
                · by_cases h2 : a = "$defs"
                  · exact Or.inr h2
                  · exact absurd ⟨h1, h2⟩ hcond
              exact ⟨a, b, rfl, hab, halo⟩
  · intro files root
    rfl

/-- C9: when the path given to `parse_from_file` does not exist, the parser
retries the path with a `.json` extension; only when that fallback path also
cannot be read does it fail, with a diagnostic naming the fallback file, and
when the fallback is readable parsing proceeds on the fallback file. -/
theorem C9_json_fallback :
    ∀ (fs : String → Option String) (decode : String → Option Schema) (fuel : Nat)
      (path : String), fs path = none →
      (fs (withExtensionJson path) = none →
        parseFromFileM fs decode fuel path =
          .error (.fatal ("Could not open " ++ withExtensionJson path))) ∧
      (∀ c, fs (withExtensionJson path) = some c →
        parseFromFileM fs decode fuel path =
          match decode c with
          | none => .error (.fatal ("Could not parse " ++ withExtensionJson path))
          | some schema =>
            match parseFromString fuel (withExtensionJson path) schema with
            | none => .error .outOfFuel
            | some root => .ok root) := by
  intro fs decode fuel path h
  constructor
  · intro h2
    unfold parseFromFileM
    rw [h]
    simp only
    rw [h2]
  · intro c h2
    unfold parseFromFileM
    rw [h]
    simp only
    rw [h2]

/-- C10: `Generator::add` and `Generator::add_file` enter the recursion with
`required = false`, so the public boundary wraps Primitive and Object roots in
`Option<...>`: a primitive root returns `Option<primitive>`, an object root
returns `Option<name>`, and concretely `add_file` on the parse of
`{"type":"string"}` returns the string `Option<String>`. -/
theorem C10_public_entry_optional :
    (∀ cfg fuel s basePath root p,
      add cfg (fuel + 1) s basePath root (.primitiveType p) =
        .ok ("Option<" ++ primitiveTypeName p ++ ">", s)) ∧
    (∀ cfg fuel s basePath root obj n s',
      addObject cfg fuel s basePath root obj.src obj [] = .ok (n, s') →
      add cfg (fuel + 1) s basePath root (.object obj) = .ok ("Option<" ++ n ++ ">", s')) ∧
    addFile cfgString 5 initState "d/x.json" = .ok ("Option<String>", initState) := by
  refine ⟨?_, ?_, ?_⟩
  · intro cfg fuel s basePath root p
    rfl
  · intro cfg fuel s basePath root obj n s' h
    unfold add addType
    simp only [Option.getD_none]
    rw [h]
    rfl
  · rfl

/-- Witness for C2: with `"s"` on the visited stack the concrete run returns
the boxed form of the stack-free run, and off the stack the registered name
`N` is returned with the state untouched. -/
theorem C2_witness :
    addObject cfgId 5 knownState "" emptyRoot "s" knownObj ["s"] =
      Except.map (fun p : String × GenState => ("Box<" ++ p.1 ++ ">", p.2))
        (addObject cfgId 5 knownState "" emptyRoot "s" knownObj []) ∧
    addObject cfgId 2 knownState "" emptyRoot "s" knownObj [] = .ok ("N", knownState) :=
  ⟨C2_boxed_iff_backedge.1 cfgId 5 knownState "" emptyRoot "s" knownObj ["s"] (by decide),
   C2_boxed_iff_backedge.2 cfgId 0 knownState "" emptyRoot "s" knownObj [] "N" (by decide) rfl⟩

/-- Witness for C4: a repeated encounter of the already-named src `"s"` leaves
the state untouched and reuses the name. -/
theorem C4_witness :
    addObject cfgId 2 knownState "" emptyRoot "s" knownObj ["s"] =
      .ok ((if (["s"] : List String).contains "s" then "Box<" ++ "N" ++ ">" else "N"),
        knownState) :=
  C4_one_record_per_src.1 cfgId 0 knownState "" emptyRoot "s" knownObj ["s"] "N" rfl

/-- Witness for C5: the names of the records of a completed concrete run are
pairwise distinct. -/
theorem C5_witness : (exState.types.map (fun e => e.2.2.name)).Nodup :=
  C5_unique_names.1 cfgEx 10 "d/x.json" "Option<foo>" exState rfl

/-- Witness for C6: finalizing the three-record cycle run (enumerated in
reversed order) yields a strictly position-sorted list equal to the canonical
finalization. -/
theorem C6_witness :
    List.Sorted posLT (finalizeEntries s4State.types.reverse) ∧
    finalizeEntries s4State.types.reverse = finalizeEntries s4State.types :=
  C6_output_sorted_by_position cfgS4 30 "d/loop1.json" "Option<Loop>" s4State
    s4State.types.reverse rfl (List.reverse_perm _)

/-- Witness for C7: two enumerations of the cycle run's record table finalize
to the same entry sequence. -/
theorem C7_witness :
    finalizeEntries s4State.types.reverse = finalizeEntries s4State.types :=
  C7_two_run_determinism cfgS4 30 "d/loop1.json" "Option<Loop>" s4State
    s4State.types.reverse s4State.types rfl (List.reverse_perm _) (List.Perm.refl _)

/-- Witness for C8: resolving `#/definitions/foo` against a root that defines
`foo` reduces to the definition lookup. -/
theorem C8_witness :
    resolve (fun _ => none) crRoot "#/definitions/foo" =
      (derefModel "/definitions/foo" crRoot.definitions).map
        (fun dt => ⟨crRoot, some "/definitions/foo", dt⟩) :=
  C8_resolution_characterization.1 (fun _ => none) crRoot "#/definitions/foo"
    "/definitions/foo" rfl

/-- Witness for C9: with `a` absent and `a.json` readable, parsing proceeds on
the fallback file `a.json`. -/
theorem C9_witness :
    parseFromFileM fsW decW 3 "a" =
      match decW "raw" with
      | none => .error (.fatal ("Could not parse " ++ withExtensionJson "a"))
      | some schema =>
        match parseFromString 3 (withExtensionJson "a") schema with
        | none => .error .outOfFuel
        | some root => .ok root :=
  (C9_json_fallback fsW decW 3 "a" rfl).2 "raw" rfl

/-- Witness for C10: `add` on a concrete object root returns the
`Option<...>`-wrapped record name. -/
theorem C10_witness :
    add cfgId 6 initState "" exRoot (.object exObj) = .ok ("Option<" ++ "foo" ++ ">", exState) :=
  C10_public_entry_optional.2.1 cfgId 5 initState "" exRoot exObj "foo" exState rfl

end JscGen
